import Mathlib

/-!
Shallow embedding of the NocoBase workflow plugin dispatcher
(`PluginWorkflowServer`): the workflow save hook, event intake, execution
creation, queue drain, dispatch selection, processing and lifecycle of
executions, together with theorems about the stated properties.

Conventions: JS `null`/`undefined` are `Option.none`; machine state that the
class keeps in fields (`ready`, `executing`, `pending`, `events`) is an
explicit `EngineState`; the backing database is an explicit `Store`; ambient
effects (fresh ids, random event keys, storage faults, the Processor) are
explicit oracle inputs.
-/

namespace PluginWorkflow

/-- JS runtime value of an execution status field, with `none` standing for the
JS value `null`. Modelled from the spec: the constants module is not among the
sources; the spec gives the status set QUEUEING, STARTED and terminal statuses
(RESOLVED/FAILED/ABORTED/CANCELLED), encoded as the JS values QUEUEING = null,
STARTED = 0 and nonzero numbers for the terminal statuses, so that JS
truthiness of a status holds exactly for the terminal ones. -/
abbrev StatusVal := Option Int

def EXECUTION_STATUS.QUEUEING : StatusVal := none

def EXECUTION_STATUS.STARTED : StatusVal := some 0

def EXECUTION_STATUS.RESOLVED : StatusVal := some 1

def EXECUTION_STATUS.FAILED : StatusVal := some (-1)

def EXECUTION_STATUS.ABORTED : StatusVal := some (-3)

def EXECUTION_STATUS.CANCELED : StatusVal := some (-4)

/-- JS truthiness of a status value: `null` and `0` are falsy, every other
number is truthy. -/
def truthy : StatusVal → Bool
  | none => false
  | some v => v != 0

/-- Arbitrary event context payload; `trigger` receives it as `Option Ctx`
where `none` is the JS `null`/`undefined` sentinel. -/
abbrev Ctx := Nat

/-- One row of the workflows collection, restricted to the fields the engine
reads. `current` holds a JS boolean or `null` (the hook writes `null` rather
than `false` to keep the unique index satisfied). `deleteExecutionOnStatus`
stands for `options?.deleteExecutionOnStatus` (`none` when not configured). -/
structure WorkflowRow where
  id : Nat
  key : String
  type : String
  enabled : Bool
  current : Option Bool
  sync : Bool
  executed : Nat
  allExecuted : Nat
  deleteExecutionOnStatus : Option (List StatusVal)
deriving DecidableEq, Repr

/-- One row of the executions collection, restricted to the fields the engine
reads and writes. -/
structure Execution where
  id : Nat
  workflowId : Nat
  key : String
  eventKey : String
  context : Ctx
  status : StatusVal
deriving DecidableEq, Repr

/-- Modelled from the spec: the Job model is not among the sources; a job is
the persisted outcome of one instruction within one execution. Only identity
fields are needed here. -/
structure Job where
  id : Nat
  executionId : Nat
  nodeId : Nat
deriving DecidableEq, Repr

/-- The backing database: workflows and executions tables, committed state. -/
structure Store where
  workflows : List WorkflowRow
  executions : List Execution
deriving DecidableEq, Repr

/-- Options of one trigger call (`EventOptions`). `mainTransaction` records
whether the caller supplied a transaction on the main data source, in which
case `useDataSourceTransaction` reuses it (`sameTransaction` in the source). -/
structure EventOptions where
  eventKey : Option String
  deferred : Bool
  manually : Bool
  mainTransaction : Bool
deriving DecidableEq, Repr

/-- One entry of the in-memory `events` queue (`CachedEvent`). -/
structure CachedEvent where
  workflow : WorkflowRow
  context : Ctx
  options : EventOptions
deriving DecidableEq, Repr

/-- The mutable engine fields of `PluginWorkflowServer` that the dispatcher
reads and writes: `ready`, the `executing` mutual-exclusion flag (a promise in
the source, `true` standing for non-null), the `pending` queue of
`[execution, job?]` pairs and the `events` queue. -/
structure EngineState where
  ready : Bool
  executing : Bool
  pending : List (Execution × Option Job)
  events : List CachedEvent
deriving DecidableEq, Repr

/-- Modelled from the spec: trigger implementations (the triggers directory is
not among the sources) carry an optional `sync` override and a `validateEvent`
predicate deciding whether a fired event becomes an Execution. -/
structure TriggerImpl where
  sync : Option Bool
  validateEvent : WorkflowRow → Ctx → EventOptions → Bool

/-- Modelled from the spec: the Processor is not among the sources. Running it
(`start` for a fresh run, `resume job` for re-entry) leaves the execution row
at the last status the Processor persisted and either returns normally or
throws an error message. -/
structure ProcessorBehavior where
  run : Execution → Option Job → Execution × Option String

/- ------------------------------------------------------------------ -/
/- onBeforeSave hook (workflow versioning)                             -/
/- ------------------------------------------------------------------ -/

/-- JS truthiness of the `current` column: only the value `true` is current
(`false` and `null` are not). -/
def isCurrent (w : WorkflowRow) : Bool := w.current == some true

/-- First step of the hook: `if (instance.enabled) instance.set(current, true)`. -/
def applyEnabledRule (inst : WorkflowRow) : WorkflowRow :=
  if inst.enabled then { inst with current := some true } else inst

/-- The `Model.findOne` query of the hook: another row with the same key that
is current and has a different id. -/
def findPrevious (inst : WorkflowRow) (table : List WorkflowRow) : Option WorkflowRow :=
  table.find? (fun w => w.key == inst.key && isCurrent w && w.id != inst.id)

/-- Second step of the hook: `if (!previous) instance.set(current, true)`. -/
def applyNoPreviousRule (inst : WorkflowRow) (previous : Option WorkflowRow) : WorkflowRow :=
  if previous.isNone then { inst with current := some true } else inst

/-- The update applied to the previous current version:
`previous.update({ enabled: false, current: null })`. -/
def demoteRow (w : WorkflowRow) : WorkflowRow := { w with enabled := false, current := none }

/-- Demotion applied inside the table, addressed by row id. -/
def demote (table : List WorkflowRow) (pid : Nat) : List WorkflowRow :=
  table.map (fun w => if w.id == pid then demoteRow w else w)

/-- Result of the `onBeforeSave` hook: the instance about to be saved, the
other rows after any demotion, and the trigger toggle calls it made
(workflow id, enable flag). -/
structure BeforeSaveResult where
  toSave : WorkflowRow
  others : List WorkflowRow
  toggles : List (Nat × Bool)
deriving DecidableEq, Repr

/-- The `onBeforeSave` hook of the plugin, acting on the instance being saved
and the other committed rows (all of which have an id different from the
instance id). All updates happen under the same transaction in the source;
here the whole hook is one atomic step. -/
def onBeforeSave (inst : WorkflowRow) (table : List WorkflowRow) : BeforeSaveResult :=
  match findPrevious (applyEnabledRule inst) table with
  | some p =>
    if isCurrent (applyEnabledRule inst) then
      ⟨applyEnabledRule inst, demote table p.id, [(p.id, false)]⟩
    else ⟨applyEnabledRule inst, table, []⟩
  | none => ⟨applyNoPreviousRule (applyEnabledRule inst) none, table, []⟩

/-- The committed workflow table after the save: the saved instance together
with the other rows. -/
def committedRows (r : BeforeSaveResult) : List WorkflowRow := r.toSave :: r.others

/-- At most one current version per key: any two current rows sharing a key
are the same row. -/
def currentUnique (rows : List WorkflowRow) : Prop :=
  ∀ w ∈ rows, ∀ w' ∈ rows, w.key = w'.key → isCurrent w = true → isCurrent w' = true → w = w'

/- ------------------------------------------------------------------ -/
/- Event intake: trigger                                               -/
/- ------------------------------------------------------------------ -/

/-- Result tag of one `trigger` call. `ignored` is a logged no-op on a failed
precondition; `errored` is the throw of `isWorkflowSync` on an unregistered
trigger type; `syncRun` delegates to `triggerSync` in the caller context;
`queued kicked` pushed the event, `kicked` recording whether `prepare` was
scheduled (only when the queue was empty before). -/
inductive TriggerOutcome where
  | ignored
  | errored
  | syncRun
  | queued (kicked : Bool)
deriving DecidableEq, Repr

/-- The `isWorkflowSync` computation: `trigger.sync ?? workflow.sync`, or
`none` when the trigger type is not registered (the source throws there). -/
def wfSyncFlag (reg : String → Option TriggerImpl) (w : WorkflowRow) : Option Bool :=
  (reg w.type).map (fun t => t.sync.getD w.sync)

/-- The public `trigger(workflow, context, options)` entry point. The three
guards return early as logged no-ops; the manual or synchronous path delegates
to `triggerSync`; otherwise the event (with the transaction stripped from its
options) is appended to the `events` queue. -/
def trigger (reg : String → Option TriggerImpl) (s : EngineState) (w : WorkflowRow)
    (context : Option Ctx) (opts : EventOptions) : EngineState × TriggerOutcome :=
  if !s.ready then (s, .ignored)
  else if !opts.manually && !w.enabled then (s, .ignored)
  else
    match context with
    | none => (s, .ignored)
    | some ctx =>
      if opts.manually then (s, .syncRun)
      else
        match wfSyncFlag reg w with
        | none => (s, .errored)
        | some sflag =>
          if sflag then (s, .syncRun)
          else
            let ev : CachedEvent :=
              { workflow := w, context := ctx, options := { opts with mainTransaction := false } }
            let events := s.events ++ [ev]
            ({ s with events := events }, .queued (events.length == 1))

/- ------------------------------------------------------------------ -/
/- createExecution                                                     -/
/- ------------------------------------------------------------------ -/

/-- Fate of the transaction used by `createExecution`: committed or rolled
back when the function opened it itself, left open on the throw before any
commit, or left entirely to the caller when the caller supplied it. -/
inductive TxFate where
  | committedOwn
  | rolledBackOwn
  | openOwn
  | callerOwned
deriving DecidableEq, Repr

/-- Ambient effects of one `createExecution` call: the id storage assigns to
the new row, the `randomUUID()` value, and whether the insert throws (for
example a constraint violation). -/
structure CreateCtx where
  newExecutionId : Nat
  genEventKey : String
  createFails : Bool
deriving DecidableEq, Repr

/-- Outcome of one `createExecution` call: the returned execution (`none` both
on a discarded event and on a throw), the committed store afterwards, the fate
of the transaction, and the thrown error if any. -/
structure CreateExecutionOutcome where
  result : Option Execution
  store : Store
  txFate : TxFate
  error : Option String
deriving DecidableEq, Repr

/-- The private `createExecution(workflow, context, options)`: acquire or
reuse a transaction, consult the trigger `validateEvent` (a false result
discards the event and commits an own transaction cleanly), insert the
execution row with status STARTED when deferred else QUEUEING (rolling back
an own transaction and rethrowing on an insert failure), then increment the
`executed` counter of the workflow and propagate `allExecuted` to every
version sharing the key, and commit an own transaction. -/
def createExecution (reg : String → Option TriggerImpl) (store : Store) (w : WorkflowRow)
    (ctx : Ctx) (opts : EventOptions) (cc : CreateCtx) : CreateExecutionOutcome :=
  let sameTransaction := opts.mainTransaction
  let ownFate := fun (f : TxFate) => if sameTransaction then TxFate.callerOwned else f
  match reg w.type with
  | none => ⟨none, store, ownFate .openOwn, some "TypeError: trigger is undefined"⟩
  | some trig =>
    if !trig.validateEvent w ctx opts then
      ⟨none, store, ownFate .committedOwn, none⟩
    else if cc.createFails then
      ⟨none, store, ownFate .rolledBackOwn, some "create failed"⟩
    else
      let ex : Execution :=
        { id := cc.newExecutionId, workflowId := w.id, key := w.key,
          eventKey := opts.eventKey.getD cc.genEventKey, context := ctx,
          status := if opts.deferred then EXECUTION_STATUS.STARTED else EXECUTION_STATUS.QUEUEING }
      let newAll := w.allExecuted + 1
      let store1 : Store :=
        { workflows := store.workflows.map (fun u =>
            if u.id == w.id then { u with executed := u.executed + 1, allExecuted := newAll }
            else if u.key == w.key then { u with allExecuted := newAll }
            else u),
          executions := store.executions ++ [ex] }
      ⟨some ex, store1, ownFate .committedOwn, none⟩

/- ------------------------------------------------------------------ -/
/- process                                                             -/
/- ------------------------------------------------------------------ -/

/-- Entry step of `process`: an execution still QUEUEING is updated to
STARTED before the Processor is delegated to. -/
def processEntry (execution : Execution) : Execution :=
  if execution.status == EXECUTION_STATUS.QUEUEING then
    { execution with status := EXECUTION_STATUS.STARTED }
  else execution

/-- Outcome of one `process` call: the execution row as last persisted, whether
the row was destroyed, and the caught (never rethrown) error if any. -/
structure ProcessOutcome where
  execution : Execution
  destroyed : Bool
  caughtErr : Option String
deriving DecidableEq, Repr

/-- The private `process(execution, job?)`: transition QUEUEING to STARTED,
delegate to the Processor (`resume` when a job is given, else `start`), and on
normal completion destroy the row when
`execution.status && deleteExecutionOnStatus?.includes(execution.status)`
holds; any thrown error is caught and logged, leaving the row at its last
persisted status and never destroying it. `delList` is the configured
`options?.deleteExecutionOnStatus` of the owning workflow. -/
def process (proc : ProcessorBehavior) (delList : Option (List StatusVal))
    (execution : Execution) (job : Option Job) : ProcessOutcome :=
  let e1 := processEntry execution
  let r := proc.run e1 job
  match r.2 with
  | some msg => ⟨r.1, false, some msg⟩
  | none =>
    if truthy r.1.status && (delList.getD []).contains r.1.status then ⟨r.1, true, none⟩
    else ⟨r.1, false, none⟩

/-- Effect of a finished `process` call on the executions table: the row is
removed when destroyed, else replaced by its final state. -/
def applyOutcome (store : Store) (out : ProcessOutcome) : Store :=
  if out.destroyed then
    { store with executions := store.executions.filter (fun e => e.id != out.execution.id) }
  else
    { store with executions :=
        store.executions.map (fun e => if e.id == out.execution.id then out.execution else e) }

/- ------------------------------------------------------------------ -/
/- dispatch                                                            -/
/- ------------------------------------------------------------------ -/

/-- Whether the workflow an execution belongs to exists and is enabled. -/
def workflowEnabled (store : Store) (e : Execution) : Bool :=
  match store.workflows.find? (fun w => w.id == e.workflowId) with
  | some w => w.enabled
  | none => false

/-- The configured `options?.deleteExecutionOnStatus` of the workflow owning
an execution, when both exist. -/
def deleteListOf (store : Store) (e : Execution) : Option (List StatusVal) :=
  (store.workflows.find? (fun w => w.id == e.workflowId)).bind
    (fun w => w.deleteExecutionOnStatus)

/-- The row a `findOne` with ascending id sort returns: the element with the
smallest id setup of the list. -/
def minById : List Execution → Option Execution
  | [] => none
  | e :: rest =>
    match minById rest with
    | none => some e
    | some m => if e.id ≤ m.id then some e else some m

/-- The storage poll of `dispatch`: the QUEUEING execution with the smallest
id whose workflow exists and is enabled
(`filter: status QUEUEING, workflow.enabled true, workflow.id not null`,
`sort: id`). -/
def queuedPoll (store : Store) : Option Execution :=
  minById (store.executions.filter
    (fun e => e.status == EXECUTION_STATUS.QUEUEING && workflowEnabled store e))

/-- What one `dispatch` call did: returned on a failed guard (`notReady`,
`busy`), deferred to `prepare` on a non-empty events queue, processed one unit
of work, or found nothing and went idle. -/
inductive DispatchStep where
  | notReady
  | busy
  | deferredPrepare
  | processed (item : Execution × Option Job)
  | idle
deriving DecidableEq, Repr

/-- Outcome of one `dispatch` call, after the spawned operation (if any) has
completed and its `finally` block has run: the engine state (with `executing`
cleared again), the store, what happened, and whether the `finally` block
re-invoked `dispatch`. -/
structure DispatchOutcome where
  state : EngineState
  store : Store
  step : DispatchStep
  redispatched : Bool
deriving DecidableEq, Repr

/-- The private `dispatch()`: a logged no-op when not ready or when an
operation is executing; a deferral to `prepare` when events are queued;
otherwise it takes the head of `pending` (FIFO) or polls storage for the
oldest QUEUEING execution of an enabled workflow, processes it, and in the
`finally` block clears `executing` and re-invokes itself when a unit of work
was taken. -/
def dispatchCycle (proc : ProcessorBehavior) (store : Store) (s : EngineState) : DispatchOutcome :=
  if !s.ready then ⟨s, store, .notReady, false⟩
  else if s.executing then ⟨s, store, .busy, false⟩
  else if !s.events.isEmpty then ⟨s, store, .deferredPrepare, false⟩
  else
    match s.pending with
    | item :: rest =>
      let out := process proc (deleteListOf store item.1) item.1 item.2
      ⟨{ s with pending := rest, executing := false }, applyOutcome store out, .processed item, true⟩
    | [] =>
      match queuedPoll store with
      | some e =>
        let out := process proc (deleteListOf store e) e none
        ⟨{ s with executing := false }, applyOutcome store out, .processed (e, none), true⟩
      | none => ⟨{ s with executing := false }, store, .idle, false⟩

/- ------------------------------------------------------------------ -/
/- start and resume                                                    -/
/- ------------------------------------------------------------------ -/

/-- Outcome of `start` or `resume`: the engine state and whether `dispatch`
was invoked. -/
structure StartOutcome where
  state : EngineState
  dispatched : Bool
deriving DecidableEq, Repr

/-- The public `start(execution)`: a deferred execution is pushed onto
`pending` and `dispatch` is invoked, but only when its status is STARTED. -/
def start (s : EngineState) (execution : Execution) : StartOutcome :=
  if execution.status != EXECUTION_STATUS.STARTED then ⟨s, false⟩
  else ⟨{ s with pending := s.pending ++ [(execution, none)] }, true⟩

/-- The public `resume(job)`: the pair of the owning execution and the job is
pushed onto `pending` and `dispatch` is invoked. -/
def resume (s : EngineState) (execution : Execution) (job : Job) : StartOutcome :=
  ⟨{ s with pending := s.pending ++ [(execution, some job)] }, true⟩

/- ------------------------------------------------------------------ -/
/- prepare                                                             -/
/- ------------------------------------------------------------------ -/

/-- How `prepare` returned: warned on an already empty events queue, or
finished the drain and invoked `dispatch`. -/
inductive PrepareEnd where
  | emptyWarn
  | dispatched
deriving DecidableEq, Repr

/-- Outcome of one `prepare` run: the pending queue and events queue
afterwards, the store, the events shifted off the queue in order, the events
whose creation threw (logged and intentionally not requeued), the executions
created, and how the run ended. -/
structure PrepareResult where
  pendingAfter : List (Execution × Option Job)
  eventsAfter : List CachedEvent
  store : Store
  handled : List CachedEvent
  dropped : List CachedEvent
  created : List Execution
  ending : PrepareEnd
deriving DecidableEq, Repr

/-- The seeding step of one `prepare` round: a created execution still
QUEUEING is cached into `pending` when nothing is executing and nothing is
pending (the low latency fast path of the source). -/
def prepareSeedPending (executing : Bool) (pending : List (Execution × Option Job))
    (out : CreateExecutionOutcome) : List (Execution × Option Job) :=
  match out.error, out.result with
  | none, some ex =>
    if ex.status == EXECUTION_STATUS.QUEUEING && !executing && pending.isEmpty then
      pending ++ [(ex, none)]
    else pending
  | _, _ => pending

/-- The catch branch of one `prepare` round: a thrown creation error drops the
event (logged, not requeued). -/
def prepareDropped (ev : CachedEvent) (out : CreateExecutionOutcome) : List CachedEvent :=
  if out.error.isSome then [ev] else []

/-- The executions a `prepare` round successfully created. -/
def prepareCreated (out : CreateExecutionOutcome) : List Execution :=
  match out.error, out.result with
  | none, some ex => [ex]
  | _, _ => []

/-- The private `prepare()` drain loop, recursing on the events queue with the
`executing` flag, the pending queue and the store threaded through. Each round
shifts one event and calls `createExecution` on it (`mk`): a thrown error is
caught and logged and the event is dropped, not requeued (the requeue in the
source is commented out as causing an infinite retry loop); a created QUEUEING
execution is seeded into `pending` when nothing is executing and nothing is
pending; then the loop recurses while events remain and invokes `dispatch`
once drained. -/
def prepare (mk : CachedEvent → Store → CreateExecutionOutcome) :
    List CachedEvent → Bool → List (Execution × Option Job) → Store → PrepareResult
  | [], _, pending, store => ⟨pending, [], store, [], [], [], .emptyWarn⟩
  | ev :: rest, executing, pending, store =>
    match rest with
    | [] =>
      ⟨prepareSeedPending executing pending (mk ev store), [], (mk ev store).store, [ev],
        prepareDropped ev (mk ev store), prepareCreated (mk ev store), .dispatched⟩
    | r :: rs =>
      let t := prepare mk (r :: rs) executing
        (prepareSeedPending executing pending (mk ev store)) (mk ev store).store
      ⟨t.pendingAfter, t.eventsAfter, t.store, ev :: t.handled,
        prepareDropped ev (mk ev store) ++ t.dropped,
        prepareCreated (mk ev store) ++ t.created, t.ending⟩

/- ================================================================== -/
/- Theorems                                                            -/
/- ================================================================== -/

/- Helper lemmas for the onBeforeSave hook. -/

theorem isCurrent_demoteRow (w : WorkflowRow) : isCurrent (demoteRow w) = false := rfl

theorem applyEnabledRule_id (i : WorkflowRow) : (applyEnabledRule i).id = i.id := by
  unfold applyEnabledRule; split <;> rfl

theorem applyEnabledRule_key (i : WorkflowRow) : (applyEnabledRule i).key = i.key := by
  unfold applyEnabledRule; split <;> rfl

theorem findPrevious_none {i : WorkflowRow} {t : List WorkflowRow}
    (h : findPrevious i t = none) :
    ∀ x ∈ t, x.key = i.key → isCurrent x = true → x.id = i.id := by
  intro x hx hk hc
  have hp := List.find?_eq_none.mp h x hx
  simp [hk, hc] at hp
  exact hp

theorem findPrevious_some {i p : WorkflowRow} {t : List WorkflowRow}
    (h : findPrevious i t = some p) :
    p ∈ t ∧ p.key = i.key ∧ isCurrent p = true ∧ p.id ≠ i.id := by
  refine ⟨List.mem_of_find?_eq_some h, ?_⟩
  have hp := List.find?_some h
  simp [Bool.and_eq_true, bne_iff_ne] at hp
  exact ⟨hp.1.1, hp.1.2, hp.2⟩

theorem currentUnique_cons_not {i : WorkflowRow} {table : List WorkflowRow}
    (h : isCurrent i = false) (hu : currentUnique table) :
    currentUnique (i :: table) := by
  intro w hw w' hw' hk hc hc'
  rcases List.mem_cons.mp hw with rfl | hw
  · rw [hc] at h; cases h
  · rcases List.mem_cons.mp hw' with rfl | hw'
    · rw [hc'] at h; cases h
    · exact hu w hw w' hw' hk hc hc'

theorem currentUnique_cons_none {i : WorkflowRow} {table : List WorkflowRow}
    (hid : ∀ w ∈ table, w.id ≠ i.id)
    (hnone : findPrevious i table = none)
    (hu : currentUnique table) :
    currentUnique ({ i with current := some true } :: table) := by
  intro w hw w' hw' hk hc hc'
  rcases List.mem_cons.mp hw with rfl | hw
  · rcases List.mem_cons.mp hw' with rfl | hw'
    · rfl
    · exfalso
      have hkey : w'.key = i.key := hk.symm
      exact hid w' hw' (findPrevious_none hnone w' hw' hkey hc')
  · rcases List.mem_cons.mp hw' with rfl | hw'
    · exfalso
      have hkey : w.key = i.key := hk
      exact hid w hw (findPrevious_none hnone w hw hkey hc)
    · exact hu w hw w' hw' hk hc hc'

theorem currentUnique_demote {i p : WorkflowRow} {table : List WorkflowRow}
    (hp : findPrevious i table = some p)
    (hu : currentUnique table) :
    currentUnique (i :: demote table p.id) := by
  obtain ⟨hpmem, hpkey, hpcur, hpid⟩ := findPrevious_some hp
  have hmem : ∀ w ∈ demote table p.id, isCurrent w = true → w ∈ table ∧ w.id ≠ p.id := by
    intro w hw hc
    rcases List.mem_map.mp hw with ⟨x, hx, hxe⟩
    by_cases hxid : (x.id == p.id) = true
    · rw [if_pos hxid] at hxe
      rw [← hxe, isCurrent_demoteRow] at hc
      cases hc
    · rw [if_neg hxid] at hxe
      subst hxe
      exact ⟨hx, by simpa using hxid⟩
  intro w hw w' hw' hk hc hc'
  rcases List.mem_cons.mp hw with hwi | hwt
  · rcases List.mem_cons.mp hw' with hw'i | hw't
    · rw [hwi, hw'i]
    · exfalso
      obtain ⟨hw'd, hw'id⟩ := hmem w' hw't hc'
      have hkey : w'.key = p.key := by rw [← hk, hwi, hpkey]
      have he : w' = p := hu w' hw'd p hpmem hkey hc' hpcur
      exact hw'id (by rw [he])
  · rcases List.mem_cons.mp hw' with hw'i | hw't
    · exfalso
      obtain ⟨hwd, hwid⟩ := hmem w hwt hc
      have hkey : w.key = p.key := by
        rw [hk, hw'i, hpkey]
      have he : w = p := hu w hwd p hpmem hkey hc hpcur
      exact hwid (by rw [he])
    · obtain ⟨hwd, _⟩ := hmem w hwt hc
      obtain ⟨hw'd, _⟩ := hmem w' hw't hc'
      exact hu w hwd w' hw'd hk hc hc'

/-- C1: among all Workflow rows sharing the same key, at most one is current
in the committed state after any workflow save; and when the saved instance
becomes current while a previous version of the same key is current, the
beforeSave hook updates that previous version to enabled = false and
current = null inside the same save step and toggles its trigger off. -/
theorem C1_before_save_current_unique (inst : WorkflowRow) (table : List WorkflowRow)
    (hid : ∀ w ∈ table, w.id ≠ inst.id)
    (hu : currentUnique table) :
    currentUnique (committedRows (onBeforeSave inst table)) ∧
    (∀ prev, findPrevious (applyEnabledRule inst) table = some prev →
      isCurrent (onBeforeSave inst table).toSave = true →
      { prev with enabled := false, current := none } ∈ (onBeforeSave inst table).others ∧
      (onBeforeSave inst table).toggles = [(prev.id, false)]) := by
  have hid1 : ∀ w ∈ table, w.id ≠ (applyEnabledRule inst).id := by
    intro w hw; rw [applyEnabledRule_id]; exact hid w hw
  unfold onBeforeSave committedRows
  cases hp : findPrevious (applyEnabledRule inst) table with
  | none =>
    dsimp only
    simp only [applyNoPreviousRule, Option.isNone_none, if_true]
    refine ⟨currentUnique_cons_none hid1 hp hu, ?_⟩
    intro prev hprev
    exact Option.noConfusion hprev
  | some p =>
    dsimp only
    by_cases hcur : isCurrent (applyEnabledRule inst) = true
    · rw [if_pos hcur]
      refine ⟨currentUnique_demote hp hu, ?_⟩
      intro prev hprev _
      injection hprev with hpe
      subst hpe
      obtain ⟨hpmem, _, _, _⟩ := findPrevious_some hp
      refine ⟨?_, rfl⟩
      have hm := List.mem_map_of_mem (fun w => if w.id == p.id then demoteRow w else w) hpmem
      simpa [demote, demoteRow] using hm
    · rw [if_neg hcur]
      have hf : isCurrent (applyEnabledRule inst) = false := by
        simpa using hcur
      refine ⟨currentUnique_cons_not hf hu, ?_⟩
      intro prev hprev hsave
      exact absurd hsave hcur

/-- Concrete save demoting a previous current version: the hypotheses of the
C1 theorem are satisfiable and its conclusion evaluates on this input. -/
def c1inst : WorkflowRow :=
  { id := 2, key := "wf", type := "collection", enabled := true, current := none,
    sync := false, executed := 0, allExecuted := 3, deleteExecutionOnStatus := none }

def c1prev : WorkflowRow :=
  { id := 1, key := "wf", type := "collection", enabled := true, current := some true,
    sync := false, executed := 3, allExecuted := 3, deleteExecutionOnStatus := none }

theorem C1_before_save_current_unique_witness :
    currentUnique (committedRows (onBeforeSave c1inst [c1prev])) ∧
    ({ c1prev with enabled := false, current := none } ∈ (onBeforeSave c1inst [c1prev]).others ∧
      (onBeforeSave c1inst [c1prev]).toggles = [(c1prev.id, false)]) := by
  have h := C1_before_save_current_unique c1inst [c1prev] (by decide)
    (by unfold currentUnique; decide)
  exact ⟨h.1, h.2 c1prev (by decide) (by decide)⟩

/- Helper lemmas for the storage poll and the dispatcher. -/

theorem minById_mem : ∀ {l : List Execution} {e : Execution}, minById l = some e → e ∈ l := by
  intro l
  induction l with
  | nil => intro e h; cases h
  | cons a rest ih =>
    intro e h
    unfold minById at h
    cases hm : minById rest with
    | none =>
      rw [hm] at h
      dsimp only at h
      injection h with h
      rw [← h]
      exact List.mem_cons_self a rest
    | some m =>
      rw [hm] at h
      dsimp only at h
      by_cases hle : a.id ≤ m.id
      · rw [if_pos hle] at h
        injection h with h
        rw [← h]
        exact List.mem_cons_self a rest
      · rw [if_neg hle] at h
        injection h with h
        rw [← h]
        exact List.mem_cons_of_mem a (ih hm)

theorem minById_eq_none : ∀ {l : List Execution}, minById l = none → l = [] := by
  intro l h
  cases l with
  | nil => rfl
  | cons a rest =>
    exfalso
    unfold minById at h
    cases hm : minById rest with
    | none => rw [hm] at h; dsimp only at h; cases h
    | some m =>
      rw [hm] at h
      dsimp only at h
      by_cases hle : a.id ≤ m.id
      · rw [if_pos hle] at h; cases h
      · rw [if_neg hle] at h; cases h

theorem minById_le : ∀ {l : List Execution} {e : Execution}, minById l = some e →
    ∀ x ∈ l, e.id ≤ x.id := by
  intro l
  induction l with
  | nil => intro e h; cases h
  | cons a rest ih =>
    intro e h x hx
    unfold minById at h
    cases hm : minById rest with
    | none =>
      rw [hm] at h
      dsimp only at h
      injection h with h
      have hrest : rest = [] := minById_eq_none hm
      rcases List.mem_cons.mp hx with hxa | hxr
      · rw [← h, hxa]
      · rw [hrest] at hxr
        cases hxr
    | some m =>
      rw [hm] at h
      dsimp only at h
      rcases List.mem_cons.mp hx with hxa | hxr
      · by_cases hle : a.id ≤ m.id
        · rw [if_pos hle] at h
          injection h with h
          rw [← h, hxa]
        · rw [if_neg hle] at h
          injection h with h
          rw [← h, hxa]
          exact le_of_lt (lt_of_not_le hle)
      · have hmle := ih hm x hxr
        by_cases hle : a.id ≤ m.id
        · rw [if_pos hle] at h
          injection h with h
          rw [← h]
          exact le_trans hle hmle
        · rw [if_neg hle] at h
          injection h with h
          rw [← h]
          exact hmle

theorem dispatch_processed_clears (proc : ProcessorBehavior) (store : Store) (s : EngineState)
    (item : Execution × Option Job)
    (hstep : (dispatchCycle proc store s).step = .processed item) :
    s.executing = false ∧ (dispatchCycle proc store s).state.executing = false ∧
    (dispatchCycle proc store s).redispatched = true := by
  by_cases hr : s.ready = true
  · by_cases hex : s.executing = true
    · simp [dispatchCycle, hr, hex] at hstep
    · have hex' : s.executing = false := by simpa using hex
      by_cases hev : s.events.isEmpty = true
      · cases hpend : s.pending with
        | cons p0 rest =>
          refine ⟨hex', ?_, ?_⟩ <;> simp [dispatchCycle, hr, hex', hev, hpend]
        | nil =>
          cases hq : queuedPoll store with
          | some e =>
            refine ⟨hex', ?_, ?_⟩ <;> simp [dispatchCycle, hr, hex', hev, hpend, hq]
          | none =>
            simp [dispatchCycle, hr, hex', hev, hpend, hq] at hstep
      · have hev' : s.events.isEmpty = false := by simpa using hev
        simp [dispatchCycle, hr, hex', hev'] at hstep
  · have hr' : s.ready = false := by simpa using hr
    simp [dispatchCycle, hr'] at hstep

/-- C2: when `executing` is non-null, a `dispatch` call is a logged no-op that
changes nothing, selects nothing and processes nothing; a unit of work is only
ever started from a state where `executing` is clear, and the completion of
the in-flight operation (its `finally` block) leaves `executing` cleared and
re-invokes `dispatch`. -/
theorem C2_dispatch_mutual_exclusion (proc : ProcessorBehavior) (store : Store)
    (s : EngineState) :
    (s.executing = true →
      dispatchCycle proc store s =
        ⟨s, store, if s.ready = true then .busy else .notReady, false⟩) ∧
    (∀ item, (dispatchCycle proc store s).step = .processed item →
      s.executing = false ∧ (dispatchCycle proc store s).state.executing = false ∧
      (dispatchCycle proc store s).redispatched = true) := by
  constructor
  · intro hex
    by_cases hr : s.ready = true
    · simp [dispatchCycle, hr, hex]
    · have hr' : s.ready = false := by simpa using hr
      simp [dispatchCycle, hr']
  · intro item hstep
    exact dispatch_processed_clears proc store s item hstep

def c2proc : ProcessorBehavior := ⟨fun e _ => (e, none)⟩

def c2store : Store := ⟨[], []⟩

def c2s : EngineState := { ready := true, executing := true, pending := [], events := [] }

theorem C2_dispatch_mutual_exclusion_witness :
    dispatchCycle c2proc c2store c2s = ⟨c2s, c2store, .busy, false⟩ := by
  have h := (C2_dispatch_mutual_exclusion c2proc c2store c2s).1 rfl
  simpa [c2s] using h

/-- C4: a `trigger` call with the engine not ready, or with the workflow not
enabled and `manually` unset, or with a null context, returns without error,
creates no Execution and leaves the engine state (the `events` queue
included) unchanged — a silent logged no-op. -/
theorem C4_trigger_guards (reg : String → Option TriggerImpl) (s : EngineState)
    (w : WorkflowRow) (context : Option Ctx) (opts : EventOptions)
    (h : s.ready = false ∨ (opts.manually = false ∧ w.enabled = false) ∨ context = none) :
    trigger reg s w context opts = (s, .ignored) := by
  rcases h with hr | ⟨hm, he⟩ | hc
  · simp [trigger, hr]
  · by_cases hr : s.ready = true
    · simp [trigger, hr, hm, he]
    · have hr' : s.ready = false := by simpa using hr
      simp [trigger, hr']
  · subst hc
    by_cases hr : s.ready = true
    · by_cases hme : (!opts.manually && !w.enabled) = true
      · simp [trigger, hr, hme]
      · have hme' : (!opts.manually && !w.enabled) = false := by simpa using hme
        simp [trigger, hr, hme']
    · have hr' : s.ready = false := by simpa using hr
      simp [trigger, hr']

def c4s : EngineState := { ready := true, executing := false, pending := [], events := [] }

def c4w : WorkflowRow :=
  { id := 9, key := "wf4", type := "collection", enabled := true, current := some true,
    sync := false, executed := 0, allExecuted := 0, deleteExecutionOnStatus := none }

def c4opts : EventOptions :=
  { eventKey := none, deferred := false, manually := true, mainTransaction := false }

theorem C4_trigger_guards_witness :
    trigger (fun _ => none) c4s c4w none c4opts = (c4s, .ignored) :=
  C4_trigger_guards (fun _ => none) c4s c4w none c4opts (Or.inr (Or.inr rfl))

/-- C10: `start(execution)` on an execution whose status is not STARTED is a
no-op — nothing is pushed onto `pending` and `dispatch` is not invoked; only
an execution already in the STARTED (deferred) state is enqueued. -/
theorem C10_start_requires_started (s : EngineState) (e : Execution) :
    (e.status ≠ EXECUTION_STATUS.STARTED → start s e = ⟨s, false⟩) ∧
    (e.status = EXECUTION_STATUS.STARTED →
      start s e = ⟨{ s with pending := s.pending ++ [(e, none)] }, true⟩) := by
  constructor
  · intro h
    unfold start
    rw [if_pos (by simpa using h)]
  · intro h
    unfold start
    rw [if_neg (by simp [h])]

def c10s : EngineState := { ready := true, executing := false, pending := [], events := [] }

def c10e : Execution :=
  { id := 11, workflowId := 9, key := "wf4", eventKey := "k10", context := 0,
    status := EXECUTION_STATUS.QUEUEING }

theorem C10_start_requires_started_witness : start c10s c10e = ⟨c10s, false⟩ := by
  have h := C10_start_requires_started c10s c10e
  exact h.1 (by decide)

/-- C3: an Execution is created with status QUEUEING, or STARTED when the
caller requested a deferred execution; `process` transitions a QUEUEING
execution to STARTED before delegating to the Processor and leaves any other
status untouched; and the status the engine itself writes is never QUEUEING —
the status only moves forward and never re-enters QUEUEING. -/
theorem C3_status_forward :
    (∀ reg store w ctx opts cc ex,
      (createExecution reg store w ctx opts cc).result = some ex →
      ex.status = if opts.deferred then EXECUTION_STATUS.STARTED else EXECUTION_STATUS.QUEUEING) ∧
    (∀ e : Execution, e.status = EXECUTION_STATUS.QUEUEING →
      processEntry e = { e with status := EXECUTION_STATUS.STARTED }) ∧
    (∀ e : Execution, e.status ≠ EXECUTION_STATUS.QUEUEING → processEntry e = e) ∧
    (∀ e : Execution, (processEntry e).status ≠ EXECUTION_STATUS.QUEUEING) := by
  refine ⟨?_, ?_, ?_, ?_⟩
  · intro reg store w ctx opts cc ex h
    cases hreg : reg w.type with
    | none => simp [createExecution, hreg] at h
    | some trig =>
      cases hval : trig.validateEvent w ctx opts with
      | false => simp [createExecution, hreg, hval] at h
      | true =>
        cases hcf : cc.createFails with
        | true => simp [createExecution, hreg, hval, hcf] at h
        | false =>
          simp [createExecution, hreg, hval, hcf] at h
          rw [← h]
  · intro e he
    simp [processEntry, he]
  · intro e he
    unfold processEntry
    rw [if_neg (by simpa using he)]
  · intro e
    unfold processEntry
    by_cases hq : (e.status == EXECUTION_STATUS.QUEUEING) = true
    · rw [if_pos hq]
      simp [EXECUTION_STATUS.STARTED, EXECUTION_STATUS.QUEUEING]
    · rw [if_neg hq]
      simpa using hq

def c3reg : String → Option TriggerImpl := fun _ => some ⟨none, fun _ _ _ => true⟩

def c3w : WorkflowRow :=
  { id := 1, key := "wf3", type := "collection", enabled := true, current := some true,
    sync := false, executed := 0, allExecuted := 0, deleteExecutionOnStatus := none }

def c3store : Store := ⟨[c3w], []⟩

def c3opts : EventOptions :=
  { eventKey := none, deferred := false, manually := false, mainTransaction := false }

def c3cc : CreateCtx := ⟨10, "uuid-1", false⟩

def c3ex : Execution :=
  { id := 10, workflowId := 1, key := "wf3", eventKey := "uuid-1", context := 0,
    status := EXECUTION_STATUS.QUEUEING }

theorem C3_status_forward_witness :
    (createExecution c3reg c3store c3w 0 c3opts c3cc).result = some c3ex ∧
    c3ex.status = EXECUTION_STATUS.QUEUEING ∧
    processEntry c3ex = { c3ex with status := EXECUTION_STATUS.STARTED } := by
  have h := C3_status_forward
  refine ⟨rfl, ?_, h.2.1 c3ex rfl⟩
  have h1 := h.1 c3reg c3store c3w 0 c3opts c3cc c3ex rfl
  simpa [c3opts] using h1

/-- C5: dispatch selects the next unit of work in fixed priority order — with
the engine ready and nothing executing: a non-empty `events` queue defers to
`prepare` and nothing is processed; otherwise the head of `pending` is taken
(FIFO); otherwise storage is polled for the QUEUEING execution with the
smallest id whose workflow is enabled; and when nothing is found the engine
goes idle. -/
theorem C5_dispatch_selection (proc : ProcessorBehavior) (store : Store) (s : EngineState)
    (hr : s.ready = true) (hex : s.executing = false) :
    (s.events ≠ [] → dispatchCycle proc store s = ⟨s, store, .deferredPrepare, false⟩) ∧
    (s.events = [] → ∀ item rest, s.pending = item :: rest →
      (dispatchCycle proc store s).step = .processed item ∧
      (dispatchCycle proc store s).state.pending = rest) ∧
    (s.events = [] → s.pending = [] → ∀ e, queuedPoll store = some e →
      (dispatchCycle proc store s).step = .processed (e, none) ∧
      e ∈ store.executions ∧ e.status = EXECUTION_STATUS.QUEUEING ∧
      workflowEnabled store e = true ∧
      (∀ e' ∈ store.executions, e'.status = EXECUTION_STATUS.QUEUEING →
        workflowEnabled store e' = true → e.id ≤ e'.id)) ∧
    (s.events = [] → s.pending = [] → queuedPoll store = none →
      dispatchCycle proc store s = ⟨{ s with executing := false }, store, .idle, false⟩) := by
  refine ⟨?_, ?_, ?_, ?_⟩
  · intro hne
    have hev : s.events.isEmpty = false := by
      cases hevs : s.events with
      | nil => exact absurd hevs hne
      | cons a l => rfl
    simp [dispatchCycle, hr, hex, hev]
  · intro hevn item rest hpend
    have hev : s.events.isEmpty = true := by simp [hevn]
    constructor <;> simp [dispatchCycle, hr, hex, hev, hpend]
  · intro hevn hpend e hq
    have hev : s.events.isEmpty = true := by simp [hevn]
    have hq' : minById (store.executions.filter
        (fun x => x.status == EXECUTION_STATUS.QUEUEING && workflowEnabled store x)) = some e := hq
    have hmem := minById_mem hq'
    have hfil := List.mem_filter.mp hmem
    have hprop := hfil.2
    simp only [Bool.and_eq_true, beq_iff_eq] at hprop
    refine ⟨?_, hfil.1, hprop.1, hprop.2, ?_⟩
    · simp [dispatchCycle, hr, hex, hev, hpend, hq]
    · intro e' he' hst hen
      refine minById_le hq' e' (List.mem_filter.mpr ⟨he', ?_⟩)
      simp [hst, hen]
  · intro hevn hpend hq
    have hev : s.events.isEmpty = true := by simp [hevn]
    simp [dispatchCycle, hr, hex, hev, hpend, hq]

def c5proc : ProcessorBehavior := ⟨fun e _ => (e, none)⟩

def c5w : WorkflowRow :=
  { id := 1, key := "wf5", type := "collection", enabled := true, current := some true,
    sync := false, executed := 0, allExecuted := 0, deleteExecutionOnStatus := none }

def c5e3 : Execution :=
  { id := 3, workflowId := 1, key := "wf5", eventKey := "a", context := 0,
    status := EXECUTION_STATUS.QUEUEING }

def c5e7 : Execution :=
  { id := 7, workflowId := 1, key := "wf5", eventKey := "b", context := 0,
    status := EXECUTION_STATUS.QUEUEING }

def c5store : Store := ⟨[c5w], [c5e7, c5e3]⟩

def c5s : EngineState := { ready := true, executing := false, pending := [], events := [] }

theorem C5_dispatch_selection_witness :
    (dispatchCycle c5proc c5store c5s).step = .processed (c5e3, none) ∧
    c5e3.id ≤ c5e7.id := by
  have h := C5_dispatch_selection c5proc c5store c5s rfl rfl
  have h3 := h.2.2.1 rfl rfl c5e3 (by decide)
  exact ⟨h3.1, h3.2.2.2.2 c5e7 (by decide) (by decide) (by decide)⟩

/-- C6: an error thrown by the Processor is caught inside `process` and never
propagated — `process` returns normally recording the caught error, performs
no destroy and leaves the execution at the last status the Processor
persisted; and after any processed unit of work the dispatcher ends with
`executing` cleared and re-invokes itself. -/
theorem C6_process_error_contained (proc : ProcessorBehavior)
    (delList : Option (List StatusVal)) (e : Execution) (j : Option Job)
    (e1 : Execution) (msg : String)
    (herr : proc.run (processEntry e) j = (e1, some msg)) :
    process proc delList e j = ⟨e1, false, some msg⟩ ∧
    (∀ store s item, (dispatchCycle proc store s).step = .processed item →
      (dispatchCycle proc store s).state.executing = false ∧
      (dispatchCycle proc store s).redispatched = true) := by
  constructor
  · simp [process, herr]
  · intro store s item hstep
    exact (dispatch_processed_clears proc store s item hstep).2

def c6proc : ProcessorBehavior := ⟨fun e _ => (e, some "boom")⟩

def c6exec : Execution :=
  { id := 3, workflowId := 1, key := "wf6", eventKey := "e6", context := 0,
    status := EXECUTION_STATUS.STARTED }

theorem C6_process_error_contained_witness :
    process c6proc none c6exec none = ⟨c6exec, false, some "boom"⟩ := by
  have h := C6_process_error_contained c6proc none c6exec none c6exec "boom" rfl
  exact h.1

/-- C7: when the trigger `validateEvent` returns false, `createExecution`
creates no Execution row, increments no workflow counters (the store is
unchanged), returns null without error, and commits a transaction it opened
itself while leaving a caller-supplied transaction to the caller. -/
theorem C7_create_execution_invalid (reg : String → Option TriggerImpl) (store : Store)
    (w : WorkflowRow) (ctx : Ctx) (opts : EventOptions) (cc : CreateCtx) (trig : TriggerImpl)
    (hreg : reg w.type = some trig)
    (hval : trig.validateEvent w ctx opts = false) :
    createExecution reg store w ctx opts cc =
      ⟨none, store, if opts.mainTransaction then .callerOwned else .committedOwn, none⟩ := by
  simp [createExecution, hreg, hval]

def c7trig : TriggerImpl := ⟨none, fun _ _ _ => false⟩

def c7reg : String → Option TriggerImpl := fun _ => some c7trig

def c7w : WorkflowRow :=
  { id := 2, key := "wf7", type := "collection", enabled := true, current := some true,
    sync := false, executed := 5, allExecuted := 5, deleteExecutionOnStatus := none }

def c7store : Store := ⟨[c7w], []⟩

def c7opts : EventOptions :=
  { eventKey := none, deferred := false, manually := false, mainTransaction := false }

theorem C7_create_execution_invalid_witness :
    createExecution c7reg c7store c7w 0 c7opts ⟨20, "u20", false⟩ =
      ⟨none, c7store, .committedOwn, none⟩ := by
  have h := C7_create_execution_invalid c7reg c7store c7w 0 c7opts ⟨20, "u20", false⟩ c7trig
    rfl rfl
  simpa [c7opts] using h

theorem prepare_cons_nil (mk : CachedEvent → Store → CreateExecutionOutcome)
    (ev : CachedEvent) (executing : Bool) (pending : List (Execution × Option Job))
    (store : Store) :
    prepare mk [ev] executing pending store =
      ⟨prepareSeedPending executing pending (mk ev store), [], (mk ev store).store, [ev],
        prepareDropped ev (mk ev store), prepareCreated (mk ev store), .dispatched⟩ := rfl

theorem prepare_cons_cons (mk : CachedEvent → Store → CreateExecutionOutcome)
    (ev r : CachedEvent) (rs : List CachedEvent) (executing : Bool)
    (pending : List (Execution × Option Job)) (store : Store) :
    prepare mk (ev :: r :: rs) executing pending store =
      let t := prepare mk (r :: rs) executing
        (prepareSeedPending executing pending (mk ev store)) (mk ev store).store
      ⟨t.pendingAfter, t.eventsAfter, t.store, ev :: t.handled,
        prepareDropped ev (mk ev store) ++ t.dropped,
        prepareCreated (mk ev store) ++ t.created, t.ending⟩ := rfl

/-- C8: the `prepare` drain handles every queued event exactly once in order
and leaves the events queue empty — an event whose `createExecution` throws is
logged and dropped (it is a sublist witness: each input event ends up dropped
at most once and is never pushed back), the drain continues with the remaining
events, and once drained `dispatch` is invoked; in particular a failing head
event lands in the dropped list. -/
theorem C8_prepare_drops_failed (mk : CachedEvent → Store → CreateExecutionOutcome)
    (events : List CachedEvent) (executing : Bool)
    (pending : List (Execution × Option Job)) (store : Store) :
    (prepare mk events executing pending store).handled = events ∧
    (prepare mk events executing pending store).eventsAfter = [] ∧
    (events ≠ [] → (prepare mk events executing pending store).ending = .dispatched) ∧
    List.Sublist (prepare mk events executing pending store).dropped events ∧
    (∀ ev rest, events = ev :: rest → (mk ev store).error.isSome = true →
      ev ∈ (prepare mk events executing pending store).dropped) := by
  induction events generalizing pending store with
  | nil =>
    refine ⟨rfl, rfl, fun h => absurd rfl h, List.nil_sublist _, ?_⟩
    intro ev rest heq
    cases heq
  | cons ev rest ih =>
    cases rest with
    | nil =>
      rw [prepare_cons_nil]
      dsimp only
      refine ⟨rfl, rfl, fun _ => rfl, ?_, ?_⟩
      · by_cases he : (mk ev store).error.isSome = true
        · simp only [prepareDropped, he, if_true]
          exact List.Sublist.refl [ev]
        · have he' : (mk ev store).error.isSome = false := by simpa using he
          simp only [prepareDropped, he', Bool.false_eq_true, if_false]
          exact List.nil_sublist [ev]
      · intro ev0 rest0 heq herr
        injection heq with h1 h2
        subst h1
        simp [prepareDropped, herr]
    | cons r rs =>
      rw [prepare_cons_cons]
      dsimp only
      obtain ⟨ih1, ih2, ih3, ih4, _⟩ :=
        ih (prepareSeedPending executing pending (mk ev store)) ((mk ev store).store)
      refine ⟨?_, ih2, fun _ => ih3 (by simp), ?_, ?_⟩
      · rw [ih1]
      · by_cases he : (mk ev store).error.isSome = true
        · simp only [prepareDropped, he, if_true, List.singleton_append]
          exact List.Sublist.cons₂ ev ih4
        · have he' : (mk ev store).error.isSome = false := by simpa using he
          simp only [prepareDropped, he', Bool.false_eq_true, if_false, List.nil_append]
          exact List.Sublist.cons ev ih4
      · intro ev0 rest0 heq herr
        injection heq with h1 h2
        subst h1
        simp [prepareDropped, herr]

def c8reg : String → Option TriggerImpl := fun _ => some ⟨none, fun _ _ _ => true⟩

def c8w : WorkflowRow :=
  { id := 4, key := "wf8", type := "collection", enabled := true, current := some true,
    sync := false, executed := 0, allExecuted := 0, deleteExecutionOnStatus := none }

def c8ev : CachedEvent :=
  { workflow := c8w, context := 0,
    options := { eventKey := none, deferred := false, manually := false,
                 mainTransaction := false } }

/-- A creation oracle built from the real `createExecution` whose storage
insert throws, so the one queued event fails. -/
def c8mk : CachedEvent → Store → CreateExecutionOutcome :=
  fun ev st => createExecution c8reg st ev.workflow ev.context ev.options ⟨7, "u7", true⟩

def c8store : Store := ⟨[c8w], []⟩

theorem C8_prepare_drops_failed_witness :
    (prepare c8mk [c8ev] false [] c8store).handled = [c8ev] ∧
    (prepare c8mk [c8ev] false [] c8store).ending = .dispatched ∧
    c8ev ∈ (prepare c8mk [c8ev] false [] c8store).dropped := by
  have h := C8_prepare_drops_failed c8mk [c8ev] false [] c8store
  exact ⟨h.1, h.2.2.1 (by simp), h.2.2.2.2 c8ev [] rfl rfl⟩

/- C9: the claim states the row is destroyed iff the final status is contained
in the configured `deleteExecutionOnStatus` list. The source guards the
destroy with the JS truthiness of the status
(`execution.status && ...includes(execution.status)`), so a falsy final
status — STARTED, the status of a suspended execution — is never destroyed
even when the configured list contains it. -/

def c9proc : ProcessorBehavior := ⟨fun e _ => (e, none)⟩

def c9list : Option (List StatusVal) := some [EXECUTION_STATUS.STARTED]

def c9exec : Execution :=
  { id := 4, workflowId := 1, key := "wf9", eventKey := "e9", context := 0,
    status := EXECUTION_STATUS.QUEUEING }

/-- C9 counterexample: a Processor run that suspends the execution (its final
persisted status is STARTED) under a workflow configured with
`deleteExecutionOnStatus = [STARTED]` — the final status is contained in the
configured list, the run ends without error, and yet the row is not
destroyed, refuting the claimed if-and-only-if. -/
theorem C9_counterexample_suspended_listed :
    (process c9proc c9list c9exec none).caughtErr = none ∧
    (c9list.getD []).contains (process c9proc c9list c9exec none).execution.status = true ∧
    (process c9proc c9list c9exec none).destroyed = false := by
  refine ⟨rfl, ?_, rfl⟩
  rfl

/-- C9 amended: after a Processor run that ends without error, the Execution
row is destroyed iff the final status is truthy in the JS sense (a terminal
status — neither null QUEUEING nor 0 STARTED) and is contained in the
configured `deleteExecutionOnStatus` list; otherwise the row is kept. -/
theorem C9_delete_on_status (proc : ProcessorBehavior) (delList : Option (List StatusVal))
    (e : Execution) (j : Option Job)
    (hok : (proc.run (processEntry e) j).2 = none) :
    (process proc delList e j).destroyed = true ↔
      (truthy (process proc delList e j).execution.status = true ∧
        (delList.getD []).contains (process proc delList e j).execution.status = true) := by
  simp only [process, hok]
  split
  · next hcond =>
    simp only [Bool.and_eq_true] at hcond
    simpa using hcond
  · next hcond =>
    simp only [Bool.and_eq_true] at hcond
    simpa using hcond

def c9bproc : ProcessorBehavior :=
  ⟨fun e _ => ({ e with status := EXECUTION_STATUS.RESOLVED }, none)⟩

def c9bexec : Execution :=
  { id := 5, workflowId := 1, key := "wf9", eventKey := "e9b", context := 0,
    status := EXECUTION_STATUS.QUEUEING }

theorem C9_delete_on_status_witness :
    (process c9bproc (some [EXECUTION_STATUS.RESOLVED]) c9bexec none).destroyed = true := by
  have h := C9_delete_on_status c9bproc (some [EXECUTION_STATUS.RESOLVED]) c9bexec none rfl
  exact h.mpr ⟨rfl, rfl⟩

end PluginWorkflow
